import Mathlib

/-!
Verification of the go-monitor event-telemetry library: the event model and its
NDJSON serialization (src/event.go), the asynchronous batching shipper
(src/shipper.go), and the process-wide entry points (src/monitor.go), embedded
shallowly as pure functions and a step relation on shipper states.
-/

namespace Monitor

/-- JSON values, the codomain of serialization. Go renders numbers in decimal;
the model restricts numeric payloads to integers. -/
inductive J where
  | null : J
  | bool : Bool → J
  | num : Int → J
  | str : String → J
  | arr : List J → J
  | obj : List (String × J) → J

/-- A Go value handed to Emit as the `data any` argument: either a value that
json.Marshal encodes to the given JSON, or an unsupported value (channel,
function, cyclic structure) on which json.Marshal returns the given error. -/
inductive GoValue where
  | json : J → GoValue
  | unsupported : String → GoValue

/-- Event (src/event.go): one monitoring record. The struct has exactly these
fields, in this order; `env`, `job_id`, `request_id`, `trace_id` and `data`
carry the omitempty tag. There is no user-ID field in the struct. -/
structure Event where
  timestamp : String
  service : String
  env : String
  jobID : String
  requestID : String
  traceID : String
  name : String
  level : String
  data : Option GoValue

/-- Context values (src/context.go): the four correlation IDs a context can
carry under the typed keys, each independently present or absent. -/
structure Context where
  jobID : Option String := none
  requestID : Option String := none
  traceID : Option String := none
  userID : Option String := none

/-- context.Background(): a context carrying no values. -/
def Background : Context := {}

/-- WithJobID (src/context.go). -/
def WithJobID (ctx : Context) (v : String) : Context := { ctx with jobID := some v }

/-- WithRequestID (src/context.go). -/
def WithRequestID (ctx : Context) (v : String) : Context := { ctx with requestID := some v }

/-- WithTraceID (src/context.go). -/
def WithTraceID (ctx : Context) (v : String) : Context := { ctx with traceID := some v }

/-- WithUserID (src/context.go). -/
def WithUserID (ctx : Context) (v : String) : Context := { ctx with userID := some v }

/-- JobID accessor (src/context.go): the stored value, or empty when absent. -/
def JobID (ctx : Context) : String := ctx.jobID.getD ""

/-- RequestID accessor (src/context.go). -/
def RequestID (ctx : Context) : String := ctx.requestID.getD ""

/-- TraceID accessor (src/context.go). -/
def TraceID (ctx : Context) : String := ctx.traceID.getD ""

/-- UserID accessor (src/context.go). -/
def UserID (ctx : Context) : String := ctx.userID.getD ""

/-- Config (src/monitor.go): process configuration. `batchSize` is a Go int and
`flushEvery` a Go duration in nanoseconds. -/
structure Config where
  service : String
  env : String := ""
  jobID : String := ""
  ingestURL : String := ""
  apiKey : String := ""
  batchSize : Int := 0
  flushEvery : Int := 0
  gzipEnabled : Bool := false
  disableStdout : Bool := false

/-- newEvent (src/event.go): builds an Event from the context and the global
config; `now` stands for time.Now().UTC().Format(time.RFC3339Nano). The job ID
falls back to the config's job ID; the user ID of the context is not consulted
anywhere. -/
def newEvent (gcfg : Option Config) (now : String) (ctx : Context) (name : String)
    (data : Option GoValue) (level : String) : Event :=
  let jobID0 := JobID ctx
  let jobID := if jobID0 = "" then
      (match gcfg with | some cfg => cfg.jobID | none => jobID0)
    else jobID0
  { timestamp := now
    service := match gcfg with | some cfg => cfg.service | none => ""
    env := match gcfg with | some cfg => cfg.env | none => ""
    jobID := jobID
    requestID := RequestID ctx
    traceID := TraceID ctx
    name := name
    level := if level = "" then "info" else level
    data := data }

/-- An opening brace character, written by its code point. -/
def lbraceC : Char := Char.ofNat 123

/-- A closing brace character, written by its code point. -/
def rbraceC : Char := Char.ofNat 125

/-- Lowercase hexadecimal digit, as Go's encoding/json uses in escapes. -/
def hexDigit (n : Nat) : Char :=
  if n < 10 then Char.ofNat (48 + n) else Char.ofNat (87 + n)

/-- Go encoding/json string escaping (with the default HTML escaping): quote
and backslash escaped; newline, carriage return and tab as short escapes; other
control characters and the HTML-sensitive characters as \u00xx; U+2028 and
U+2029 escaped; every other character written verbatim. -/
def escapeChar (c : Char) : List Char :=
  if c = '"' then ['\\', '"']
  else if c = '\\' then ['\\', '\\']
  else if c = '\n' then ['\\', 'n']
  else if c = '\r' then ['\\', 'r']
  else if c = '\t' then ['\\', 't']
  else if c.toNat < 32 ∨ c = '<' ∨ c = '>' ∨ c = '&' then
    ['\\', 'u', '0', '0', hexDigit (c.toNat / 16), hexDigit (c.toNat % 16)]
  else if c.toNat = 8232 ∨ c.toNat = 8233 then
    ['\\', 'u', '2', '0', '2', hexDigit (c.toNat % 16)]
  else [c]

/-- The rendered null keyword. -/
def nullLit : List Char := ['n', 'u', 'l', 'l']

/-- The rendered true keyword. -/
def trueLit : List Char := ['t', 'r', 'u', 'e']

/-- The rendered false keyword. -/
def falseLit : List Char := ['f', 'a', 'l', 's', 'e']

/-- Characters of a JSON string literal, quotes included. -/
def strChars (s : String) : List Char :=
  '"' :: (s.data.map escapeChar).flatten ++ ['"']

/-- Decimal digits of a natural number, most significant first. -/
def natChars (n : Nat) : List Char :=
  if n < 10 then [hexDigit n]
  else natChars (n / 10) ++ [hexDigit (n % 10)]
termination_by n
decreasing_by exact Nat.div_lt_self (by omega) (by omega)

/-- Characters of a JSON number: decimal with a leading minus for negatives. -/
def numChars (n : Int) : List Char :=
  if n < 0 then '-' :: natChars (-n).toNat else natChars n.toNat

mutual

/-- Characters of a rendered JSON value, compact, as Go's encoding/json emits
it. -/
def jchars : J → List Char
  | .num n => numChars n
  | .str s => strChars s
  | .arr [] => ['[', ']']
  | .arr (x :: xs) => '[' :: (elemChars x xs ++ [']'])
  | .obj [] => [lbraceC, rbraceC]
  | .obj (f :: fs) => lbraceC :: (fieldChars f fs ++ [rbraceC])
  | .null => nullLit
  | .bool b => if b then trueLit else falseLit
termination_by j => sizeOf j

/-- Characters of a nonempty comma-separated element list. -/
def elemChars : J → List J → List Char
  | x, [] => jchars x
  | x, y :: rest => jchars x ++ ',' :: elemChars y rest
termination_by x xs => sizeOf x + sizeOf xs

/-- Characters of a nonempty comma-separated field list. -/
def fieldChars : String × J → List (String × J) → List Char
  | (k, v), [] => strChars k ++ ':' :: jchars v
  | (k, v), f :: rest => strChars k ++ ':' :: jchars v ++ ',' :: fieldChars f rest
termination_by f fs => sizeOf f + sizeOf fs

end

/-- The JSON fields of a marshaled Event in struct order, honoring omitempty;
an unsupported data payload makes json.Marshal fail for the whole record. -/
def eventFields (e : Event) : Except String (List (String × J)) :=
  match e.data with
  | some (.unsupported msg) => .error msg
  | _ =>
    .ok (("timestamp", J.str e.timestamp) ::
      ("service", J.str e.service) ::
      ((if e.env = "" then [] else [("env", J.str e.env)]) ++
       (if e.jobID = "" then [] else [("job_id", J.str e.jobID)]) ++
       (if e.requestID = "" then [] else [("request_id", J.str e.requestID)]) ++
       (if e.traceID = "" then [] else [("trace_id", J.str e.traceID)]) ++
       ("name", J.str e.name) ::
       ("level", J.str e.level) ::
       (match e.data with
        | some (.json j) => [("data", j)]
        | _ => [])))

/-- MarshalJSON / ToJSON (src/event.go): serialize one Event to its compact
single-line JSON record. -/
def marshalEvent (e : Event) : Except String String :=
  (eventFields e).map (fun fs => String.mk (jchars (J.obj fs)))

/-- Body of the outbound request: the NDJSON payload verbatim, or — when gzip
is enabled — the whole payload compressed as one unit. -/
inductive Body where
  | plain : String → Body
  | gzipped : String → Body
deriving DecidableEq

/-- The observable parts of the HTTP POST that doFlush builds
(src/shipper.go). -/
structure HttpRequest where
  method : String
  url : String
  contentType : String
  contentEncoding : Option String
  authorization : Option String
  body : Body
deriving DecidableEq

/-- The NDJSON payload loop of doFlush (src/shipper.go): each event is
marshaled and written followed by one newline; an event that fails to marshal
is skipped with a stderr diagnostic and the rest of the batch proceeds.
Returns the payload and the diagnostics, in order. -/
def buildPayload : List Event → String × List String
  | [] => ("", [])
  | e :: rest =>
    let p := buildPayload rest
    match marshalEvent e with
    | .ok line => (line ++ "\n" ++ p.1, p.2)
    | .error msg => (p.1, ("monitor: failed to marshal event: " ++ msg) :: p.2)

/-- Request construction of doFlush (src/shipper.go): no request when the
payload is empty; otherwise a POST to the ingest URL with content type
application/x-ndjson, gzip content encoding exactly when enabled, and a bearer
Authorization header exactly when an API key is configured. -/
def flushRequest (cfg : Config) (batch : List Event) : Option HttpRequest × List String :=
  let p := buildPayload batch
  if p.1 = "" then (none, p.2)
  else
    (some {
      method := "POST"
      url := cfg.ingestURL
      contentType := "application/x-ndjson"
      contentEncoding := if cfg.gzipEnabled then some "gzip" else none
      authorization := if cfg.apiKey = "" then none else some ("Bearer " ++ cfg.apiKey)
      body := if cfg.gzipEnabled then Body.gzipped p.1 else Body.plain p.1 }, p.2)

/-- State of one shipper instance together with its observable history: the
intake channel contents (`queue`, of capacity `queueCap`), the accumulation
buffer, the stop flag (true once stop has returned and the run loop exited),
the delivery attempts made so far (`sent`) and the stderr diagnostics. -/
structure SState where
  cfg : Config
  queueCap : Int
  queue : List Event
  buffer : List Event
  stopped : Bool
  sent : List HttpRequest
  diags : List String

/-- newShipper (src/shipper.go): fresh instance, empty buffer, intake channel
of capacity BatchSize*2, not stopped. -/
def newShipper (cfg : Config) : SState :=
  { cfg := cfg, queueCap := cfg.batchSize * 2, queue := [], buffer := [],
    stopped := false, sent := [], diags := [] }

/-- send (src/shipper.go): non-blocking enqueue via select-with-default; when
the channel is full the event is dropped with a stderr diagnostic. The
function is total and returns no error to the caller. -/
def send (st : SState) (e : Event) : SState :=
  if (st.queue.length : Int) < st.queueCap then { st with queue := st.queue ++ [e] }
  else { st with diags := st.diags ++ ["monitor: shipper buffer full, dropping event"] }

/-- doFlush (src/shipper.go): a no-op on an empty buffer; otherwise take the
whole buffer as the batch, reset the buffer, and perform one delivery attempt
built by `flushRequest` (recorded in `sent`). -/
def doFlush (st : SState) : SState :=
  if st.buffer.isEmpty then st
  else
    let r := flushRequest st.cfg st.buffer
    { st with buffer := [], sent := st.sent ++ r.1.toList, diags := st.diags ++ r.2 }

/-- The eventsCh arm of run (src/shipper.go): append the received event to the
buffer and flush immediately when the buffer length has reached BatchSize. -/
def handleEvent (e : Event) (st : SState) : SState :=
  let st1 := { st with buffer := st.buffer ++ [e] }
  if (st1.buffer.length : Int) ≥ st1.cfg.batchSize then doFlush st1 else st1

/-- flush (src/shipper.go): the caller's synchronous flush. When the instance
is stopped, stopCh is closed and the run loop is gone, so the select takes the
stopCh arm and the call returns at once without any flush; while running, the
request is serviced by the run loop's flushCh arm, which performs doFlush and
then closes the done channel the caller waits on. -/
def flushCall (st : SState) : SState :=
  if st.stopped then st else doFlush st

/-- stop (src/shipper.go) together with the stopCh arm of run: stop closes
stopCh and blocks on doneCh until the run loop has drained the events still in
the intake channel into the buffer, performed one final flush and exited. The
model folds this handshake into one transition whose result is the state at
the moment stop returns. -/
def stopShipper (st : SState) : SState :=
  doFlush { st with queue := [], buffer := st.buffer ++ st.queue, stopped := true }

/-- The run loop consuming already-queued events in order through the eventsCh
arm, with no timer tick and no flush request interleaved (the scenario of an
effectively disabled timer). -/
def runQueued : List Event → SState → SState
  | [], st => st
  | e :: rest, st => runQueued rest (handleEvent e st)

/-- One observable transition of the shipper system: a producer calling send, a
caller calling flush, or the run loop serving one select arm; a loop arm is
enabled only while the loop is alive, i.e. before stop. -/
inductive Step : SState → SState → Prop
  | sendStep (e : Event) (st : SState) : Step st (send st e)
  | flushCallStep (st : SState) : Step st (flushCall st)
  | recvStep (e : Event) (rest : List Event) (st : SState) :
      st.stopped = false → st.queue = e :: rest →
      Step st (handleEvent e { st with queue := rest })
  | tickStep (st : SState) : st.stopped = false → Step st (doFlush st)
  | flushReqStep (st : SState) : st.stopped = false → Step st (doFlush st)
  | stopStep (st : SState) : st.stopped = false → Step st (stopShipper st)

/-- The process-wide state (src/monitor.go): globalConfig and globalShipper. -/
structure GlobalSt where
  config : Option Config
  shipper : Option SState

/-- Emit (src/monitor.go): silently a no-op before Init; otherwise builds the
event, prints it to stdout unless disabled (a marshal failure writes a stderr
diagnostic and returns before reaching the shipper), and forwards the event to
the shipper when one is configured. Result: the new global state, the stdout
line if one was printed, and the stderr lines. -/
def Emit (g : GlobalSt) (now : String) (ctx : Context) (name : String)
    (data : Option GoValue) (level : String) : GlobalSt × Option String × List String :=
  match g.config with
  | none => (g, none, [])
  | some cfg =>
    let event := newEvent g.config now ctx name data level
    let forward : GlobalSt :=
      match g.shipper with
      | none => g
      | some st => { g with shipper := some (send st event) }
    if cfg.disableStdout then (forward, none, [])
    else
      match marshalEvent event with
      | .error msg => (g, none, ["monitor: failed to marshal event: " ++ msg])
      | .ok line => (forward, some line, [])

/-- Value of a decimal digit character. -/
def digitVal (c : Char) : Nat := c.toNat - 48

/-- Leading decimal digits of the input, and the rest. -/
def takeDigits : List Char → List Char × List Char
  | [] => ([], [])
  | c :: rest =>
    if c.isDigit then
      let p := takeDigits rest
      (c :: p.1, p.2)
    else ([], c :: rest)

/-- Numeric value of a digit string, most significant first. -/
def digitsVal (ds : List Char) : Nat := ds.foldl (fun a c => a * 10 + digitVal c) 0

/-- Value of one hexadecimal digit, either case. -/
def hexVal (c : Char) : Option Nat :=
  if '0' ≤ c ∧ c ≤ '9' then some (c.toNat - 48)
  else if 'a' ≤ c ∧ c ≤ 'f' then some (c.toNat - 87)
  else if 'A' ≤ c ∧ c ≤ 'F' then some (c.toNat - 55)
  else none

/-- Decode the four hex digits of a JSON unicode escape. -/
def hex4 (a b c d : Char) : Option Nat :=
  match hexVal a, hexVal b, hexVal c, hexVal d with
  | some x, some y, some z, some w => some (((x * 16 + y) * 16 + z) * 16 + w)
  | _, _, _, _ => none

/-- Decode a one-character JSON escape. -/
def simpleEscape (c : Char) : Option Char :=
  if c = '"' then some '"'
  else if c = '\\' then some '\\'
  else if c = '/' then some '/'
  else if c = 'b' then some (Char.ofNat 8)
  else if c = 'f' then some (Char.ofNat 12)
  else if c = 'n' then some '\n'
  else if c = 'r' then some '\r'
  else if c = 't' then some '\t'
  else none

/-- Decode a four-hex-digit unicode escape payload and the rest. -/
def parseHexEscape : List Char → Option (Char × List Char)
  | a :: b :: c2 :: d :: rest =>
    match hex4 a b c2 d with
    | some n => some (Char.ofNat n, rest)
    | none => none
  | _ => none

/-- Decode one JSON escape sequence (after the backslash) and the rest. -/
def parseEscape : List Char → Option (Char × List Char)
  | [] => none
  | e :: rest =>
    if e = 'u' then parseHexEscape rest
    else
      match simpleEscape e with
      | some d => some (d, rest)
      | none => none

/-- Parse the body of a JSON string after its opening quote, returning the
decoded characters and the input after the closing quote. -/
def parseStringBody : Nat → List Char → Option (List Char × List Char)
  | 0, _ => none
  | _ + 1, [] => none
  | fuel + 1, c :: rest =>
    if c = '"' then some ([], rest)
    else if c = '\\' then
      match parseEscape rest with
      | some (d, rest2) => (parseStringBody fuel rest2).map (fun p => (d :: p.1, p.2))
      | none => none
    else (parseStringBody fuel rest).map (fun p => (c :: p.1, p.2))

/-- Match an expected literal character sequence, returning what follows. -/
def dropLit : List Char → List Char → Option (List Char)
  | [], cs => some cs
  | _ :: _, [] => none
  | p :: ps, c :: cs => if c = p then dropLit ps cs else none

mutual

/-- Fueled recursive-descent decoder for compact JSON values, returning the
value and the remaining input. -/
def parseJ : Nat → List Char → Option (J × List Char)
  | 0, _ => none
  | _ + 1, [] => none
  | fuel + 1, c :: rest =>
    if c = '"' then
      (parseStringBody (rest.length + 1) rest).map (fun p => (J.str (String.mk p.1), p.2))
    else if c = 'n' then
      match dropLit ['u', 'l', 'l'] rest with
      | some rest2 => some (J.null, rest2)
      | none => none
    else if c = 't' then
      match dropLit ['r', 'u', 'e'] rest with
      | some rest2 => some (J.bool true, rest2)
      | none => none
    else if c = 'f' then
      match dropLit ['a', 'l', 's', 'e'] rest with
      | some rest2 => some (J.bool false, rest2)
      | none => none
    else if c = '-' then
      let p := takeDigits rest
      if p.1.isEmpty then none else some (J.num (-(digitsVal p.1 : Int)), p.2)
    else if c.isDigit then
      let p := takeDigits (c :: rest)
      some (J.num (digitsVal p.1 : Int), p.2)
    else if c = '[' then parseArr fuel rest
    else if c = lbraceC then parseObj fuel rest
    else none

/-- The rest of a JSON array after its opening bracket. -/
def parseArr : Nat → List Char → Option (J × List Char)
  | _, [] => none
  | fuel, d :: rest =>
    if d = ']' then some (J.arr [], rest)
    else (parseElems fuel (d :: rest)).map (fun p => (J.arr p.1, p.2))

/-- The rest of a JSON object after its opening brace. -/
def parseObj : Nat → List Char → Option (J × List Char)
  | _, [] => none
  | fuel, d :: rest =>
    if d = rbraceC then some (J.obj [], rest)
    else (parseFields fuel (d :: rest)).map (fun p => (J.obj p.1, p.2))

/-- Elements of a nonempty JSON array, up to and including the closing
bracket. -/
def parseElems : Nat → List Char → Option (List J × List Char)
  | 0, _ => none
  | fuel + 1, cs =>
    match parseJ fuel cs with
    | some (v, ',' :: rest) => (parseElems fuel rest).map (fun p => (v :: p.1, p.2))
    | some (v, ']' :: rest) => some ([v], rest)
    | _ => none

/-- Fields of a nonempty JSON object, up to and including the closing brace. -/
def parseFields : Nat → List Char → Option (List (String × J) × List Char)
  | 0, _ => none
  | _ + 1, [] => none
  | fuel + 1, q :: cs2 =>
    if q = '"' then
      match parseStringBody (cs2.length + 1) cs2 with
      | some (k, rest) =>
        match dropLit [':'] rest with
        | some rest1 =>
          match parseJ fuel rest1 with
          | some (v, ',' :: rest2) =>
            (parseFields fuel rest2).map (fun p => ((String.mk k, v) :: p.1, p.2))
          | some (v, d :: rest2) =>
            if d = rbraceC then some ([(String.mk k, v)], rest2) else none
          | _ => none
        | none => none
      | none => none
    else none

end

/-- Split a payload into one record per newline-terminated line, as a
line-based NDJSON decoder reads it; the accumulator holds the current line
reversed. -/
def splitRecords : List Char → List Char → List (List Char)
  | [], acc => if acc.isEmpty then [] else [acc.reverse]
  | c :: rest, acc =>
    if c = '\n' then acc.reverse :: splitRecords rest []
    else splitRecords rest (c :: acc)

/-- Decode one NDJSON line as a complete JSON object, yielding its fields. -/
def decodeRecord (cs : List Char) : Option (List (String × J)) :=
  match parseJ (cs.length + 1) cs with
  | some (J.obj fs, []) => some fs
  | _ => none

/-- Parse a whole NDJSON payload line by line. -/
def parsePayload (payload : String) : List (Option (List (String × J))) :=
  (splitRecords payload.data []).map decodeRecord

mutual

/-- Fuel sufficient for parseJ to parse a rendered value. -/
def jNeed : J → Nat
  | .arr (x :: xs) => 1 + elemsNeed x xs
  | .obj (f :: fs) => 1 + fieldsNeed f fs
  | _ => 1
termination_by j => sizeOf j

/-- Fuel sufficient for parseElems on a rendered element list. -/
def elemsNeed : J → List J → Nat
  | x, [] => 1 + jNeed x
  | x, y :: rest => 1 + jNeed x + elemsNeed y rest
termination_by x xs => sizeOf x + sizeOf xs

/-- Fuel sufficient for parseFields on a rendered field list. -/
def fieldsNeed : String × J → List (String × J) → Nat
  | (_, v), [] => 1 + jNeed v
  | (_, v), f :: rest => 1 + jNeed v + fieldsNeed f rest
termination_by f fs => sizeOf f + sizeOf fs

end

/-- The declared sentinel errors (src/monitor.go). -/
inductive MonitorError where
  | errNotInitialized : MonitorError
  | errServiceRequired : MonitorError
deriving DecidableEq

/-- The error result of Init (src/monitor.go): ErrServiceRequired when
Service is empty, nil otherwise; no path returns ErrNotInitialized, and
Emit, Flush and Shutdown return no error at all. -/
def initResult (cfg : Config) : Option MonitorError :=
  if cfg.service = "" then some MonitorError.errServiceRequired else none

/-- Whether json.Marshal succeeds on the event. -/
def marshalOk (e : Event) : Bool :=
  match eventFields e with
  | .ok _ => true
  | .error _ => false

/-- The field list of a marshalable event (empty on marshal failure). -/
def eventRecord (e : Event) : List (String × J) :=
  match eventFields e with
  | .ok fs => fs
  | .error _ => []

/-- The uncompressed payload a request body carries. -/
def payloadOf : Body → String
  | .plain p => p
  | .gzipped p => p

/-- The input is empty or does not start with a decimal digit. -/
def headNotDigit : List Char → Prop
  | [] => True
  | c :: _ => c.isDigit = false

/-- Guard for the number-parsing round trip: a rendered number must not be
followed directly by another digit. -/
def numGuard : J → List Char → Prop
  | .num _, tail => headNotDigit tail
  | _, _ => True

/-- A sample configuration used by concrete witnesses. -/
def sampleCfg : Config :=
  { service := "svc", env := "prod", jobID := "job-1",
    ingestURL := "https://ingest.example/e", apiKey := "k1",
    batchSize := 2, flushEvery := 1000000000,
    gzipEnabled := false, disableStdout := false }

/-- A sample event used by concrete witnesses. -/
def sampleEvent (nm : String) : Event :=
  { timestamp := "t", service := "svc", env := "", jobID := "j",
    requestID := "", traceID := "", name := nm, level := "info", data := none }

/-- A sample running shipper state with one queued and one buffered event. -/
def sampleRunning : SState :=
  { cfg := sampleCfg, queueCap := 4, queue := [sampleEvent "q1"],
    buffer := [sampleEvent "b1"], stopped := false, sent := [], diags := [] }

/-- The request the sample flush produces, spelled out for the witness. -/
def sampleRequest : HttpRequest :=
  { method := "POST", url := sampleCfg.ingestURL,
    contentType := "application/x-ndjson", contentEncoding := none,
    authorization := some ("Bearer " ++ sampleCfg.apiKey),
    body := Body.plain (buildPayload [sampleEvent "b1"]).1 }

/-- Decoding the escape sequence of one escaped character recovers it. -/
theorem parseEscape_escapeChar (c : Char) (es : List Char) (tail : List Char)
    (h : escapeChar c = '\\' :: es) :
    parseEscape (es ++ tail) = some (c, tail) := by
  have hlow : ∀ m < 16, hexVal (hexDigit m) = some m := by decide
  unfold escapeChar at h
  split at h
  · next hc => cases h; subst hc; simp [parseEscape, simpleEscape]
  split at h
  · next hc => cases h; subst hc; simp [parseEscape, simpleEscape]
  split at h
  · next hc => cases h; subst hc; simp [parseEscape, simpleEscape]
  split at h
  · next hc => cases h; subst hc; simp [parseEscape, simpleEscape]
  split at h
  · next hc => cases h; subst hc; simp [parseEscape, simpleEscape]
  split at h
  · next h6 =>
    have hb : c.toNat < 63 := by
      rcases h6 with h' | h' | h' | h'
      · omega
      · subst h'; decide
      · subst h'; decide
      · subst h'; decide
    cases h
    have hx : hex4 '0' '0' (hexDigit (c.toNat / 16)) (hexDigit (c.toNat % 16))
        = some c.toNat := by
      have h0 : hexVal '0' = some 0 := by decide
      simp only [hex4, h0, hlow (c.toNat / 16) (by omega), hlow (c.toNat % 16) (by omega),
        Option.some.injEq]
      omega
    simp [parseEscape, parseHexEscape, hx, Char.ofNat_toNat]
  split at h
  · next h7 =>
    cases h
    have hx : hex4 '2' '0' '2' (hexDigit (c.toNat % 16)) = some c.toNat := by
      have h0 : hexVal '2' = some 2 := by decide
      have h1 : hexVal '0' = some 0 := by decide
      simp only [hex4, h0, h1, hlow (c.toNat % 16) (by omega), Option.some.injEq]
      omega
    simp [parseEscape, parseHexEscape, hx, Char.ofNat_toNat]
  · next => injection h with hch _; exact absurd hch ‹¬c = '\\'›

/-- Every character escapes either to itself (an unescaped character) or to a
backslash-led escape sequence. -/
theorem escapeChar_cases (c : Char) :
    (escapeChar c = [c] ∧ c ≠ '"' ∧ c ≠ '\\') ∨ ∃ es, escapeChar c = '\\' :: es := by
  unfold escapeChar
  split
  · exact Or.inr ⟨_, rfl⟩
  split
  · exact Or.inr ⟨_, rfl⟩
  split
  · exact Or.inr ⟨_, rfl⟩
  split
  · exact Or.inr ⟨_, rfl⟩
  split
  · exact Or.inr ⟨_, rfl⟩
  split
  · exact Or.inr ⟨_, rfl⟩
  split
  · exact Or.inr ⟨_, rfl⟩
  · next h1 h2 h3 h4 h5 h6 h7 => exact Or.inl ⟨rfl, h1, h2⟩

/-- Parsing one escaped character consumes one unit of fuel and prepends the
original character. -/
theorem parseStringBody_escapeChar (c : Char) (fuel : Nat) (tail : List Char) :
    parseStringBody (fuel + 1) (escapeChar c ++ tail) =
      (parseStringBody fuel tail).map (fun p => (c :: p.1, p.2)) := by
  rcases escapeChar_cases c with ⟨hlit, hq, hb⟩ | ⟨es, hesc⟩
  · rw [hlit, List.singleton_append]
    simp [parseStringBody, hq, hb]
  · have hp : parseEscape (es ++ tail) = some (c, tail) := parseEscape_escapeChar c es tail hesc
    rw [hesc, List.cons_append]
    simp [parseStringBody, hp]

/-- Rebuilding a string from its characters is the identity. -/
theorem mk_data_eq (s : String) : String.mk s.data = s := by
  cases s
  rfl

/-- Escaping never shortens a character list. -/
theorem length_le_escFlat (l : List Char) :
    l.length ≤ ((l.map escapeChar).flatten).length := by
  induction l with
  | nil => simp
  | cons c l ih =>
    simp only [List.map_cons, List.flatten_cons, List.length_append, List.length_cons]
    have h1 : 1 ≤ (escapeChar c).length := by
      rcases escapeChar_cases c with ⟨h, _, _⟩ | ⟨es, h⟩ <;> simp [h]
    omega

/-- Round trip for escaped string bodies, given enough fuel. -/
theorem parseStringBody_flat (l : List Char) : ∀ (fuel : Nat) (tail : List Char),
    l.length + 1 ≤ fuel →
    parseStringBody fuel ((l.map escapeChar).flatten ++ '"' :: tail) = some (l, tail) := by
  induction l with
  | nil =>
    intro fuel tail hf
    obtain ⟨f, rfl⟩ : ∃ f, fuel = f + 1 := ⟨fuel - 1, by omega⟩
    simp [parseStringBody]
  | cons c l ih =>
    intro fuel tail hf
    obtain ⟨f, rfl⟩ : ∃ f, fuel = f + 1 := ⟨fuel - 1, by omega⟩
    simp only [List.map_cons, List.flatten_cons, List.append_assoc]
    rw [parseStringBody_escapeChar, ih f tail (by simp at hf; omega)]
    rfl

/-- Round trip for rendered JSON string literals. -/
theorem parseJ_str (s : String) (fuel : Nat) (tail : List Char) :
    parseJ (fuel + 1) (strChars s ++ tail) = some (J.str s, tail) := by
  have hshape : strChars s ++ tail =
      '"' :: ((s.data.map escapeChar).flatten ++ '"' :: tail) := by
    simp [strChars]
  rw [hshape, parseJ]
  rw [if_pos rfl]
  rw [parseStringBody_flat s.data _ tail
    (by
      have h := length_le_escFlat s.data
      simp only [List.length_append, List.length_cons]
      omega)]
  simp [mk_data_eq]

/-- Every character of a rendered natural number is a decimal digit. -/
theorem natChars_digit (n : Nat) : ∀ c ∈ natChars n, c.isDigit = true := by
  induction n using Nat.strong_induction_on with
  | _ m hrec =>
    have hd : ∀ k < 10, (hexDigit k).isDigit = true := by decide
    rw [natChars]
    split
    · next h =>
      intro c hc
      simp only [List.mem_singleton] at hc
      subst hc
      exact hd m h
    · next h =>
      intro c hc
      rcases List.mem_append.mp hc with h1 | h1
      · exact hrec (m / 10) (Nat.div_lt_self (by omega) (by omega)) c h1
      · simp only [List.mem_singleton] at h1
        subst h1
        exact hd (m % 10) (Nat.mod_lt _ (by omega))

/-- A rendered natural number is nonempty. -/
theorem natChars_ne_nil (n : Nat) : natChars n ≠ [] := by
  rw [natChars]
  split <;> simp

/-- Folding one more digit multiplies by ten and adds it. -/
theorem digitsVal_append_one (ds : List Char) (c : Char) :
    digitsVal (ds ++ [c]) = digitsVal ds * 10 + digitVal c := by
  simp [digitsVal, List.foldl_append]

/-- The decimal value of a rendered natural number is the number. -/
theorem digitsVal_natChars (n : Nat) : digitsVal (natChars n) = n := by
  induction n using Nat.strong_induction_on with
  | _ m hrec =>
    have hd : ∀ k < 10, digitVal (hexDigit k) = k := by decide
    rw [natChars]
    split
    · next h =>
      simp [digitsVal, hd m h]
    · next h =>
      rw [digitsVal_append_one, hrec (m / 10) (Nat.div_lt_self (by omega) (by omega)),
        hd (m % 10) (Nat.mod_lt _ (by omega))]
      omega

/-- takeDigits splits a digit run followed by a non-digit boundary. -/
theorem takeDigits_append (ds tail : List Char) (hd : ∀ c ∈ ds, c.isDigit = true)
    (ht : headNotDigit tail) : takeDigits (ds ++ tail) = (ds, tail) := by
  induction ds with
  | nil =>
    cases tail with
    | nil => rfl
    | cons c r =>
      simp only [headNotDigit] at ht
      simp [takeDigits, ht]
  | cons c ds ih =>
    have hc : c.isDigit = true := hd c (by simp)
    have ih' := ih (fun x hx => hd x (by simp [hx]))
    simp [takeDigits, hc, ih']

/-- The number guard holds for any tail led by a non-digit. -/
theorem numGuard_cons (j : J) (c : Char) (l : List Char) (hc : c.isDigit = false) :
    numGuard j (c :: l) := by
  cases j <;> simp [numGuard, headNotDigit, hc]

/-- The number guard holds for an empty tail. -/
theorem numGuard_nil (j : J) : numGuard j [] := by
  cases j <;> simp [numGuard, headNotDigit]

/-- Round trip for rendered JSON numbers, provided no digit follows. -/
theorem parseJ_num (n : Int) (fuel : Nat) (tail : List Char) (ht : headNotDigit tail) :
    parseJ (fuel + 1) (numChars n ++ tail) = some (J.num n, tail) := by
  rw [numChars]
  split
  · next hneg =>
    have htd : takeDigits (natChars (-n).toNat ++ tail) = (natChars (-n).toNat, tail) :=
      takeDigits_append _ _ (natChars_digit _) ht
    have hne := natChars_ne_nil (-n).toNat
    rw [List.cons_append, parseJ]
    simp only [if_neg (by decide : ¬ ('-' : Char) = '"'),
      if_neg (by decide : ¬ ('-' : Char) = 'n'),
      if_neg (by decide : ¬ ('-' : Char) = 't'),
      if_neg (by decide : ¬ ('-' : Char) = 'f'),
      if_pos (rfl : ('-' : Char) = '-')]
    simp only [if_true, htd]
    rw [if_neg (by simp [hne])]
    rw [digitsVal_natChars]
    simp only [Int.toNat_of_nonneg (by omega : (0 : Int) ≤ -n)]
    simp
  · next hpos =>
    obtain ⟨d, ds, hds⟩ : ∃ d ds, natChars n.toNat = d :: ds := by
      cases h : natChars n.toNat with
      | nil => exact absurd h (natChars_ne_nil _)
      | cons d ds => exact ⟨d, ds, rfl⟩
    have hdd : d.isDigit = true := natChars_digit _ d (by rw [hds]; simp)
    have h1 : ¬ d = '"' := fun h => by rw [h] at hdd; exact absurd hdd (by decide)
    have h2 : ¬ d = 'n' := fun h => by rw [h] at hdd; exact absurd hdd (by decide)
    have h3 : ¬ d = 't' := fun h => by rw [h] at hdd; exact absurd hdd (by decide)
    have h4 : ¬ d = 'f' := fun h => by rw [h] at hdd; exact absurd hdd (by decide)
    have h5 : ¬ d = '-' := fun h => by rw [h] at hdd; exact absurd hdd (by decide)
    have hback : d :: (ds ++ tail) = natChars n.toNat ++ tail := by
      rw [hds, List.cons_append]
    have htd : takeDigits (natChars n.toNat ++ tail) = (natChars n.toNat, tail) :=
      takeDigits_append _ _ (natChars_digit _) ht
    rw [hds, List.cons_append, parseJ]
    simp only [if_neg h1, if_neg h2, if_neg h3, if_neg h4, if_neg h5, hdd, if_true]
    simp only [hback, htd]
    rw [digitsVal_natChars]
    simp only [Int.toNat_of_nonneg (by omega : (0 : Int) ≤ n)]

/-- Round trip for the rendered null keyword. -/
theorem parseJ_null (fuel : Nat) (tail : List Char) :
    parseJ (fuel + 1) (jchars J.null ++ tail) = some (J.null, tail) := by
  simp [jchars, nullLit, parseJ, dropLit]

/-- Round trip for rendered booleans. -/
theorem parseJ_bool (b : Bool) (fuel : Nat) (tail : List Char) :
    parseJ (fuel + 1) (jchars (J.bool b) ++ tail) = some (J.bool b, tail) := by
  cases b <;> simp [jchars, trueLit, falseLit, parseJ, dropLit]

/-- Every rendered value starts with a character that is not a closing
bracket, a comma, a closing brace or a colon. -/
theorem jchars_head (j : J) : ∃ c r, jchars j = c :: r ∧
    c ≠ ']' ∧ c ≠ ',' ∧ c ≠ rbraceC ∧ c ≠ ':' := by
  cases j with
  | null =>
    exact ⟨'n', ['u', 'l', 'l'], by simp [jchars, nullLit], by decide, by decide, by decide,
      by decide⟩
  | bool b =>
    cases b
    · exact ⟨'f', ['a', 'l', 's', 'e'], by simp [jchars, falseLit], by decide, by decide,
        by decide, by decide⟩
    · exact ⟨'t', ['r', 'u', 'e'], by simp [jchars, trueLit], by decide, by decide,
        by decide, by decide⟩
  | num n =>
    have hj : jchars (J.num n) = numChars n := by simp [jchars]
    rw [hj, numChars]
    split
    · exact ⟨'-', natChars (-n).toNat, rfl, by decide, by decide, by decide, by decide⟩
    · obtain ⟨d, ds, hds⟩ : ∃ d ds, natChars n.toNat = d :: ds := by
        cases h : natChars n.toNat with
        | nil => exact absurd h (natChars_ne_nil _)
        | cons d ds => exact ⟨d, ds, rfl⟩
      have hdd : d.isDigit = true := natChars_digit _ d (by rw [hds]; simp)
      refine ⟨d, ds, hds, ?_, ?_, ?_, ?_⟩ <;>
        exact fun h => by rw [h] at hdd; exact absurd hdd (by decide)
  | str s =>
    exact ⟨'"', (s.data.map escapeChar).flatten ++ ['"'], by simp [jchars, strChars],
      by decide, by decide, by decide, by decide⟩
  | arr xs =>
    cases xs with
    | nil => exact ⟨'[', [']'], by simp [jchars], by decide, by decide, by decide, by decide⟩
    | cons x xs =>
      exact ⟨'[', elemChars x xs ++ [']'], by simp [jchars], by decide, by decide,
        by decide, by decide⟩
  | obj fs =>
    cases fs with
    | nil =>
      exact ⟨lbraceC, [rbraceC], by simp [jchars], by decide, by decide, by decide, by decide⟩
    | cons f fs =>
      exact ⟨lbraceC, fieldChars f fs ++ [rbraceC], by simp [jchars], by decide, by decide,
        by decide, by decide⟩

/-- jNeed is positive. -/
theorem jNeed_pos (j : J) : 1 ≤ jNeed j := by
  cases j with
  | null => simp [jNeed]
  | bool b => simp [jNeed]
  | num n => simp [jNeed]
  | str s => simp [jNeed]
  | arr xs => cases xs <;> simp [jNeed]
  | obj fs => cases fs <;> simp [jNeed]

/-- elemsNeed is positive. -/
theorem elemsNeed_pos (x : J) (xs : List J) : 1 ≤ elemsNeed x xs := by
  cases xs <;> simp [elemsNeed] <;> omega

/-- fieldsNeed is positive. -/
theorem fieldsNeed_pos (f : String × J) (fs : List (String × J)) :
    1 ≤ fieldsNeed f fs := by
  obtain ⟨k, v⟩ := f
  cases fs <;> simp [fieldsNeed] <;> omega

/-- The decoder inverts the renderer: every rendered JSON value, element list
and field list parses back to itself, given fuel at least its need measure. -/
theorem parse_render (N : Nat) :
    (∀ j, jNeed j ≤ N → ∀ fuel tail, jNeed j ≤ fuel → numGuard j tail →
       parseJ fuel (jchars j ++ tail) = some (j, tail)) ∧
    (∀ x xs, elemsNeed x xs ≤ N → ∀ fuel tail, elemsNeed x xs ≤ fuel →
       parseElems fuel (elemChars x xs ++ ']' :: tail) = some (x :: xs, tail)) ∧
    (∀ g gs, fieldsNeed g gs ≤ N → ∀ fuel tail, fieldsNeed g gs ≤ fuel →
       parseFields fuel (fieldChars g gs ++ rbraceC :: tail) = some (g :: gs, tail)) := by
  induction N with
  | zero =>
    exact ⟨fun j hj => absurd hj (by have := jNeed_pos j; omega),
      fun x xs h => absurd h (by have := elemsNeed_pos x xs; omega),
      fun g gs h => absurd h (by have := fieldsNeed_pos g gs; omega)⟩
  | succ N ih =>
    obtain ⟨ih1, ih2, ih3⟩ := ih
    refine ⟨?_, ?_, ?_⟩
    · intro j hjN fuel tail hjf hguard
      obtain ⟨f, rfl⟩ : ∃ fp, fuel = fp + 1 := ⟨fuel - 1, by have := jNeed_pos j; omega⟩
      cases j with
      | null => exact parseJ_null f tail
      | bool b => exact parseJ_bool b f tail
      | num n =>
        have hj : jchars (J.num n) = numChars n := by simp [jchars]
        rw [hj]
        exact parseJ_num n f tail (by simpa [numGuard] using hguard)
      | str s =>
        have hj : jchars (J.str s) = strChars s := by simp [jchars]
        rw [hj]
        exact parseJ_str s f tail
      | arr xs =>
        cases xs with
        | nil =>
          have hj : jchars (J.arr []) = ['[', ']'] := by simp [jchars]
          rw [hj]
          simp [parseJ, parseArr]
        | cons x xs =>
          have hj : jchars (J.arr (x :: xs)) = '[' :: (elemChars x xs ++ [']']) := by
            simp [jchars]
          have hm : elemsNeed x xs ≤ N ∧ elemsNeed x xs ≤ f := by
            simp only [jNeed] at hjN hjf
            omega
          obtain ⟨c0, r0, hx, hb1, hb2, hb3, hb4⟩ := jchars_head x
          obtain ⟨t, htc⟩ : ∃ t, elemChars x xs = c0 :: t := by
            cases xs with
            | nil => exact ⟨r0, by simp [elemChars, hx]⟩
            | cons y ys => exact ⟨r0 ++ ',' :: elemChars y ys, by simp [elemChars, hx]⟩
          have hstep : parseJ (f + 1) (jchars (J.arr (x :: xs)) ++ tail)
              = parseArr f (elemChars x xs ++ ']' :: tail) := by
            rw [hj]
            simp [parseJ]
          rw [hstep, htc, List.cons_append, parseArr, if_neg hb1]
          rw [show c0 :: (t ++ ']' :: tail) = elemChars x xs ++ ']' :: tail by
            rw [htc, List.cons_append]]
          rw [ih2 x xs hm.1 f tail hm.2]
          rfl
      | obj fs =>
        cases fs with
        | nil =>
          have hj : jchars (J.obj []) = [lbraceC, rbraceC] := by simp [jchars]
          rw [hj]
          simp [parseJ, parseObj, lbraceC, rbraceC]
        | cons g gs =>
          have hj : jchars (J.obj (g :: gs)) = lbraceC :: (fieldChars g gs ++ [rbraceC]) := by
            simp [jchars]
          have hm : fieldsNeed g gs ≤ N ∧ fieldsNeed g gs ≤ f := by
            simp only [jNeed] at hjN hjf
            omega
          obtain ⟨k, v⟩ := g
          have hfc : ∃ t, fieldChars (k, v) gs = '"' :: t := by
            cases gs with
            | nil =>
              exact ⟨(k.data.map escapeChar).flatten ++ '"' :: ':' :: jchars v,
                by simp [fieldChars, strChars]⟩
            | cons g2 gs2 =>
              exact ⟨(k.data.map escapeChar).flatten ++
                '"' :: ':' :: (jchars v ++ ',' :: fieldChars g2 gs2),
                by simp [fieldChars, strChars]⟩
          obtain ⟨t, htc⟩ := hfc
          have hstep : parseJ (f + 1) (jchars (J.obj ((k, v) :: gs)) ++ tail)
              = parseObj f (fieldChars (k, v) gs ++ rbraceC :: tail) := by
            rw [hj]
            simp [parseJ, lbraceC, rbraceC]
          rw [hstep, htc, List.cons_append, parseObj,
            if_neg (by decide : ¬ ('"' : Char) = rbraceC)]
          rw [show '"' :: (t ++ rbraceC :: tail) = fieldChars (k, v) gs ++ rbraceC :: tail by
            rw [htc, List.cons_append]]
          rw [ih3 (k, v) gs hm.1 f tail hm.2]
          rfl
    · intro x xs hN fuel tail hf
      obtain ⟨f, rfl⟩ : ∃ fp, fuel = fp + 1 :=
        ⟨fuel - 1, by have := elemsNeed_pos x xs; omega⟩
      cases xs with
      | nil =>
        have he : elemChars x [] = jchars x := by simp [elemChars]
        have hm : jNeed x ≤ N ∧ jNeed x ≤ f := by
          simp only [elemsNeed] at hN hf
          omega
        rw [he, parseElems]
        rw [ih1 x hm.1 f (']' :: tail) hm.2 (numGuard_cons _ _ _ (by decide))]
        rfl
      | cons y ys =>
        have he : elemChars x (y :: ys) = jchars x ++ ',' :: elemChars y ys := by
          simp [elemChars]
        have hm : jNeed x ≤ N ∧ jNeed x ≤ f ∧ elemsNeed y ys ≤ N ∧ elemsNeed y ys ≤ f := by
          simp only [elemsNeed] at hN hf
          omega
        rw [he]
        rw [show (jchars x ++ ',' :: elemChars y ys) ++ ']' :: tail
            = jchars x ++ (',' :: (elemChars y ys ++ ']' :: tail)) by simp]
        rw [parseElems]
        rw [ih1 x hm.1 f _ hm.2.1 (numGuard_cons _ _ _ (by decide))]
        simp [ih2 y ys hm.2.2.1 f tail hm.2.2.2]
    · intro g gs hN fuel tail hf
      obtain ⟨k, v⟩ := g
      obtain ⟨f, rfl⟩ : ∃ fp, fuel = fp + 1 :=
        ⟨fuel - 1, by have := fieldsNeed_pos (k, v) gs; omega⟩
      cases gs with
      | nil =>
        have hfc : fieldChars (k, v) [] = strChars k ++ ':' :: jchars v := by
          simp [fieldChars]
        have hm : jNeed v ≤ N ∧ jNeed v ≤ f := by
          simp only [fieldsNeed] at hN hf
          omega
        rw [hfc]
        rw [show (strChars k ++ ':' :: jchars v) ++ rbraceC :: tail =
            '"' :: ((k.data.map escapeChar).flatten ++
              '"' :: (':' :: (jchars v ++ rbraceC :: tail))) by simp [strChars]]
        rw [parseFields, if_pos rfl]
        have hpsb : parseStringBody
            (((k.data.map escapeChar).flatten ++
              '"' :: (':' :: (jchars v ++ rbraceC :: tail))).length + 1)
            ((k.data.map escapeChar).flatten ++ '"' :: (':' :: (jchars v ++ rbraceC :: tail)))
            = some (k.data, ':' :: (jchars v ++ rbraceC :: tail)) :=
          parseStringBody_flat k.data _ _ (by
            simp only [List.length_append, List.length_cons]
            have := length_le_escFlat k.data
            omega)
        rw [hpsb]
        have hv := ih1 v hm.1 f (rbraceC :: tail) hm.2 (numGuard_cons _ _ _ (by decide))
        rw [show rbraceC = Char.ofNat 125 from rfl] at hv
        simp [dropLit, hv, mk_data_eq, rbraceC]
      | cons g2 gs2 =>
        have hfc : fieldChars (k, v) (g2 :: gs2)
            = strChars k ++ ':' :: jchars v ++ ',' :: fieldChars g2 gs2 := by
          simp [fieldChars]
        have hm : jNeed v ≤ N ∧ jNeed v ≤ f ∧ fieldsNeed g2 gs2 ≤ N ∧
            fieldsNeed g2 gs2 ≤ f := by
          simp only [fieldsNeed] at hN hf
          omega
        rw [hfc]
        rw [show (strChars k ++ ':' :: jchars v ++ ',' :: fieldChars g2 gs2) ++
            rbraceC :: tail =
            '"' :: ((k.data.map escapeChar).flatten ++
              '"' :: (':' :: (jchars v ++
                ',' :: (fieldChars g2 gs2 ++ rbraceC :: tail)))) by simp [strChars]]
        rw [parseFields, if_pos rfl]
        have hpsb : parseStringBody
            (((k.data.map escapeChar).flatten ++
              '"' :: (':' :: (jchars v ++
                ',' :: (fieldChars g2 gs2 ++ rbraceC :: tail)))).length + 1)
            ((k.data.map escapeChar).flatten ++
              '"' :: (':' :: (jchars v ++ ',' :: (fieldChars g2 gs2 ++ rbraceC :: tail))))
            = some (k.data, ':' :: (jchars v ++ ',' :: (fieldChars g2 gs2 ++ rbraceC :: tail))) :=
          parseStringBody_flat k.data _ _ (by
            simp only [List.length_append, List.length_cons]
            have := length_le_escFlat k.data
            omega)
        rw [hpsb]
        have hv := ih1 v hm.1 f (',' :: (fieldChars g2 gs2 ++ rbraceC :: tail)) hm.2.1
          (numGuard_cons _ _ _ (by decide))
        have hrest := ih3 g2 gs2 hm.2.2.1 f tail hm.2.2.2
        simp [dropLit, hv, hrest, mk_data_eq]

/-- The fuel measure of a rendered value is bounded by its length. -/
theorem need_le_length (N : Nat) :
    (∀ j, jNeed j ≤ N → jNeed j ≤ (jchars j).length) ∧
    (∀ x xs, elemsNeed x xs ≤ N → elemsNeed x xs ≤ (elemChars x xs).length + 1) ∧
    (∀ g gs, fieldsNeed g gs ≤ N → fieldsNeed g gs ≤ (fieldChars g gs).length + 1) := by
  induction N with
  | zero =>
    exact ⟨fun j hj => absurd hj (by have := jNeed_pos j; omega),
      fun x xs h => absurd h (by have := elemsNeed_pos x xs; omega),
      fun g gs h => absurd h (by have := fieldsNeed_pos g gs; omega)⟩
  | succ N ih =>
    obtain ⟨ih1, ih2, ih3⟩ := ih
    refine ⟨?_, ?_, ?_⟩
    · intro j hjN
      cases j with
      | null => simp [jNeed, jchars, nullLit]
      | bool b => cases b <;> simp [jNeed, jchars, trueLit, falseLit]
      | num n =>
        have h1 : natChars n.toNat ≠ [] := natChars_ne_nil _
        have h2 : natChars (-n).toNat ≠ [] := natChars_ne_nil _
        have l1 : 1 ≤ (natChars n.toNat).length := by
          cases h : natChars n.toNat with
          | nil => exact absurd h h1
          | cons a l => simp
        have l2 : 1 ≤ (natChars (-n).toNat).length := by
          cases h : natChars (-n).toNat with
          | nil => exact absurd h h2
          | cons a l => simp
        simp only [jNeed, jchars, numChars]
        split <;> simp <;> omega
      | str s => simp [jNeed, jchars, strChars]
      | arr xs =>
        cases xs with
        | nil => simp [jNeed, jchars]
        | cons x xs =>
          have hb := ih2 x xs (by simp only [jNeed] at hjN; omega)
          simp only [jNeed, jchars, List.length_cons, List.length_append]
          simp at hb ⊢
          omega
      | obj fs =>
        cases fs with
        | nil => simp [jNeed, jchars]
        | cons g gs =>
          have hb := ih3 g gs (by simp only [jNeed] at hjN; omega)
          simp only [jNeed, jchars, List.length_cons, List.length_append]
          simp at hb ⊢
          omega
    · intro x xs hN
      cases xs with
      | nil =>
        have hb := ih1 x (by simp only [elemsNeed] at hN; omega)
        simp only [elemsNeed, elemChars]
        omega
      | cons y ys =>
        have hb1 := ih1 x (by simp only [elemsNeed] at hN; omega)
        have hb2 := ih2 y ys (by simp only [elemsNeed] at hN; omega)
        simp only [elemsNeed, elemChars, List.length_append, List.length_cons]
        omega
    · intro g gs hN
      obtain ⟨k, v⟩ := g
      cases gs with
      | nil =>
        have hb := ih1 v (by simp only [fieldsNeed] at hN; omega)
        simp only [fieldsNeed, fieldChars, List.length_append, List.length_cons]
        omega
      | cons g2 gs2 =>
        have hb1 := ih1 v (by simp only [fieldsNeed] at hN; omega)
        have hb2 := ih3 g2 gs2 (by simp only [fieldsNeed] at hN; omega)
        simp only [fieldsNeed, fieldChars, List.length_append, List.length_cons]
        omega

/-- Escaping never emits a raw newline. -/
theorem escapeChar_no_nl (c : Char) : '\n' ∉ escapeChar c := by
  have hx : ∀ m < 16, hexDigit m ≠ '\n' := by decide
  unfold escapeChar
  split
  · simp
  split
  · simp
  split
  · simp
  split
  · simp
  split
  · simp
  split
  · next h6 =>
    have hb : c.toNat < 63 := by
      rcases h6 with h | h | h | h
      · omega
      · subst h; decide
      · subst h; decide
      · subst h; decide
    simp only [List.mem_cons, List.not_mem_nil]
    push_neg
    refine ⟨by decide, by decide, by decide, by decide, ?_, ?_, by simp⟩
    · exact fun h => hx (c.toNat / 16) (by omega) h.symm
    · exact fun h => hx (c.toNat % 16) (by omega) h.symm
  split
  · simp only [List.mem_cons, List.not_mem_nil]
    push_neg
    refine ⟨by decide, by decide, by decide, by decide, by decide, ?_, by simp⟩
    exact fun h => hx (c.toNat % 16) (by omega) h.symm
  · next h1 h2 h3 h4 h5 h6 h7 =>
    simp only [List.mem_singleton]
    exact fun h => h3 h.symm

/-- A rendered natural number contains no newline. -/
theorem natChars_no_nl (n : Nat) : '\n' ∉ natChars n := by
  intro h
  have := natChars_digit n '\n' h
  exact absurd this (by decide)

/-- Rendered string literals contain no raw newline. -/
theorem strChars_no_nl (s : String) : '\n' ∉ strChars s := by
  intro h
  rw [strChars] at h
  rcases List.mem_cons.mp h with h1 | h1
  · exact absurd h1 (by decide)
  rcases List.mem_append.mp h1 with h2 | h2
  · rw [List.mem_flatten] at h2
    obtain ⟨l, hl, hmem⟩ := h2
    rw [List.mem_map] at hl
    obtain ⟨c, _, rfl⟩ := hl
    exact escapeChar_no_nl c hmem
  · exact absurd h2 (by decide)

/-- Rendered JSON contains no raw newline. -/
theorem jchars_no_nl (N : Nat) :
    (∀ j, jNeed j ≤ N → '\n' ∉ jchars j) ∧
    (∀ x xs, elemsNeed x xs ≤ N → '\n' ∉ elemChars x xs) ∧
    (∀ g gs, fieldsNeed g gs ≤ N → '\n' ∉ fieldChars g gs) := by
  induction N with
  | zero =>
    exact ⟨fun j hj => absurd hj (by have := jNeed_pos j; omega),
      fun x xs h => absurd h (by have := elemsNeed_pos x xs; omega),
      fun g gs h => absurd h (by have := fieldsNeed_pos g gs; omega)⟩
  | succ N ih =>
    obtain ⟨ih1, ih2, ih3⟩ := ih
    refine ⟨?_, ?_, ?_⟩
    · intro j hjN
      cases j with
      | null => simp [jchars, nullLit]
      | bool b => cases b <;> simp [jchars, trueLit, falseLit]
      | num n =>
        have hj : jchars (J.num n) = numChars n := by simp [jchars]
        rw [hj, numChars]
        split
        · simp only [List.mem_cons]
          push_neg
          exact ⟨by decide, natChars_no_nl _⟩
        · exact natChars_no_nl _
      | str s =>
        have hj : jchars (J.str s) = strChars s := by simp [jchars]
        rw [hj]
        exact strChars_no_nl s
      | arr xs =>
        cases xs with
        | nil => simp [jchars]
        | cons x xs =>
          have hb := ih2 x xs (by simp only [jNeed] at hjN; omega)
          simp [jchars, hb]
      | obj fs =>
        cases fs with
        | nil => simp [jchars, lbraceC, rbraceC]
        | cons g gs =>
          have hb := ih3 g gs (by simp only [jNeed] at hjN; omega)
          simp [jchars, hb, lbraceC, rbraceC]
    · intro x xs hN
      cases xs with
      | nil =>
        have hb := ih1 x (by simp only [elemsNeed] at hN; omega)
        simpa [elemChars] using hb
      | cons y ys =>
        have hb1 := ih1 x (by simp only [elemsNeed] at hN; omega)
        have hb2 := ih2 y ys (by simp only [elemsNeed] at hN; omega)
        simp [elemChars, hb1, hb2]
    · intro g gs hN
      obtain ⟨k, v⟩ := g
      cases gs with
      | nil =>
        have hb := ih1 v (by simp only [fieldsNeed] at hN; omega)
        simp [fieldChars, hb, strChars_no_nl k]
      | cons g2 gs2 =>
        have hb1 := ih1 v (by simp only [fieldsNeed] at hN; omega)
        have hb2 := ih3 g2 gs2 (by simp only [fieldsNeed] at hN; omega)
        simp [fieldChars, hb1, hb2, strChars_no_nl k]

/-- Splitting consumes one newline-terminated line at a time. -/
theorem splitRecords_line (line : List Char) : ∀ (rest acc : List Char), '\n' ∉ line →
    splitRecords (line ++ '\n' :: rest) acc = (acc.reverse ++ line) :: splitRecords rest [] := by
  induction line with
  | nil =>
    intro rest acc _
    simp [splitRecords]
  | cons c l ih =>
    intro rest acc hnl
    have hc : ¬ c = '\n' := fun h => hnl (by simp [h])
    rw [List.cons_append, splitRecords, if_neg hc, ih rest (c :: acc) (fun h => hnl (by simp [h]))]
    simp

/-- Splitting a newline-terminated concatenation of newline-free lines
recovers exactly those lines. -/
theorem splitRecords_flatten (lines : List (List Char))
    (h : ∀ l ∈ lines, '\n' ∉ l) :
    splitRecords ((lines.map (fun l => l ++ ['\n'])).flatten) [] = lines := by
  induction lines with
  | nil => simp [splitRecords]
  | cons l ls ih =>
    simp only [List.map_cons, List.flatten_cons, List.append_assoc, List.singleton_append]
    rw [splitRecords_line l _ [] (h l (by simp))]
    rw [ih (fun x hx => h x (by simp [hx]))]
    simp

/-- Decoding a rendered object record recovers its field list. -/
theorem decodeRecord_jchars (fs : List (String × J)) :
    decodeRecord (jchars (J.obj fs)) = some fs := by
  have hlen : jNeed (J.obj fs) ≤ (jchars (J.obj fs)).length + 1 := by
    have := (need_le_length (jNeed (J.obj fs))).1 (J.obj fs) le_rfl
    omega
  have h := (parse_render (jNeed (J.obj fs))).1 (J.obj fs) le_rfl
    ((jchars (J.obj fs)).length + 1) [] hlen (numGuard_nil _)
  rw [List.append_nil] at h
  rw [decodeRecord, h]

/-- The payload of a batch concatenates the records of the events that
marshal, each followed by exactly one newline, skipping failed events; the
diagnostics name exactly the failed events, in order. -/
theorem buildPayload_eq (batch : List Event) :
    (buildPayload batch).1 =
      ((batch.filterMap (fun e => (marshalEvent e).toOption)).map
        (fun line => line ++ "\n")).foldr (fun a b => a ++ b) "" ∧
    (buildPayload batch).2 = batch.filterMap (fun e =>
      match marshalEvent e with
      | .error m => some ("monitor: failed to marshal event: " ++ m)
      | .ok _ => none) := by
  induction batch with
  | nil => exact ⟨rfl, rfl⟩
  | cons e rest ih =>
    rw [buildPayload]
    cases hm : marshalEvent e with
    | ok line =>
      refine ⟨?_, ?_⟩
      · simp only [hm, List.filterMap_cons, Except.toOption, List.map_cons, List.foldr_cons]
        rw [ih.1]
        simp only [Except.toOption]
        try rw [String.append_assoc]
      · simp only [hm, List.filterMap_cons]
        rw [ih.2]
    | error msg =>
      simp only [hm, List.filterMap_cons, Except.toOption]
      exact ⟨ih.1, by rw [ih.2]⟩

/-- At character level, the payload of an all-marshalable batch is the
newline-terminated concatenation of the rendered records. -/
theorem buildPayload_data (batch : List Event) (h : ∀ e ∈ batch, marshalOk e = true) :
    (buildPayload batch).1.data =
      ((batch.map (fun e => jchars (J.obj (eventRecord e)) ++ ['\n']))).flatten := by
  induction batch with
  | nil => rfl
  | cons e rest ih =>
    have hok : marshalOk e = true := h e (by simp)
    obtain ⟨fs, hfs⟩ : ∃ fs, eventFields e = .ok fs := by
      unfold marshalOk at hok
      cases hfe : eventFields e with
      | ok fs => exact ⟨fs, rfl⟩
      | error m => rw [hfe] at hok; cases hok
    have hme : marshalEvent e = .ok (String.mk (jchars (J.obj fs))) := by
      rw [marshalEvent, hfs]
      rfl
    have hrec : eventRecord e = fs := by
      rw [eventRecord, hfs]
    rw [buildPayload]
    simp only [hme]
    rw [List.map_cons, List.flatten_cons]
    have hrest := ih (fun x hx => h x (by simp [hx]))
    rw [String.data_append, String.data_append, hrest, hrec]

/-- Parsing the payload of an all-marshalable batch yields one decoded field
list per event, in order. -/
theorem parsePayload_roundtrip (batch : List Event)
    (h : ∀ e ∈ batch, marshalOk e = true) :
    parsePayload (buildPayload batch).1 = batch.map (fun e => some (eventRecord e)) := by
  rw [parsePayload, buildPayload_data batch h]
  have hnl : ∀ l ∈ batch.map (fun e => jchars (J.obj (eventRecord e))), '\n' ∉ l := by
    intro l hl
    rw [List.mem_map] at hl
    obtain ⟨e, _, rfl⟩ := hl
    exact (jchars_no_nl (jNeed (J.obj (eventRecord e)))).1 _ le_rfl
  have hshape : (batch.map (fun e => jchars (J.obj (eventRecord e)) ++ ['\n'])) =
      ((batch.map (fun e => jchars (J.obj (eventRecord e)))).map (fun l => l ++ ['\n'])) := by
    rw [List.map_map]
    rfl
  rw [hshape, splitRecords_flatten _ hnl, List.map_map]
  apply List.map_congr_left
  intro e _
  exact decodeRecord_jchars (eventRecord e)

/-- Field lookups on a marshaled event record: required fields are present
with the event's values, optional fields are present exactly when non-empty,
and there is no user_id field. -/
theorem eventRecord_lookup (e : Event) (h : marshalOk e = true) :
    (eventRecord e).lookup "timestamp" = some (J.str e.timestamp) ∧
    (eventRecord e).lookup "service" = some (J.str e.service) ∧
    (eventRecord e).lookup "name" = some (J.str e.name) ∧
    (eventRecord e).lookup "level" = some (J.str e.level) ∧
    (eventRecord e).lookup "env" = (if e.env = "" then none else some (J.str e.env)) ∧
    (eventRecord e).lookup "job_id" = (if e.jobID = "" then none else some (J.str e.jobID)) ∧
    (eventRecord e).lookup "request_id" =
      (if e.requestID = "" then none else some (J.str e.requestID)) ∧
    (eventRecord e).lookup "trace_id" =
      (if e.traceID = "" then none else some (J.str e.traceID)) ∧
    (eventRecord e).lookup "user_id" = none ∧
    (eventRecord e).lookup "data" =
      (match e.data with
       | some (.json j) => some j
       | _ => none) := by
  cases hd : e.data with
  | none =>
    have hrec : eventRecord e =
        ("timestamp", J.str e.timestamp) :: ("service", J.str e.service) ::
        ((if e.env = "" then [] else [("env", J.str e.env)]) ++
         (if e.jobID = "" then [] else [("job_id", J.str e.jobID)]) ++
         (if e.requestID = "" then [] else [("request_id", J.str e.requestID)]) ++
         (if e.traceID = "" then [] else [("trace_id", J.str e.traceID)]) ++
         ("name", J.str e.name) :: ("level", J.str e.level) :: []) := by
      rw [eventRecord, eventFields, hd]
    rw [hrec]
    by_cases h1 : e.env = "" <;> by_cases h2 : e.jobID = "" <;>
      by_cases h3 : e.requestID = "" <;> by_cases h4 : e.traceID = "" <;>
      simp [h1, h2, h3, h4, List.lookup]
  | some gv =>
    cases gv with
    | unsupported m =>
      rw [marshalOk, eventFields, hd] at h
      cases h
    | json j =>
      have hrec : eventRecord e =
          ("timestamp", J.str e.timestamp) :: ("service", J.str e.service) ::
          ((if e.env = "" then [] else [("env", J.str e.env)]) ++
           (if e.jobID = "" then [] else [("job_id", J.str e.jobID)]) ++
           (if e.requestID = "" then [] else [("request_id", J.str e.requestID)]) ++
           (if e.traceID = "" then [] else [("trace_id", J.str e.traceID)]) ++
           ("name", J.str e.name) :: ("level", J.str e.level) :: [("data", j)]) := by
        rw [eventRecord, eventFields, hd]
      rw [hrec]
      by_cases h1 : e.env = "" <;> by_cases h2 : e.jobID = "" <;>
        by_cases h3 : e.requestID = "" <;> by_cases h4 : e.traceID = "" <;>
        simp [h1, h2, h3, h4, List.lookup]

/-- An empty batch produces no request and no diagnostics. -/
theorem flushRequest_nil (cfg : Config) : flushRequest cfg [] = (none, []) := rfl

/-- doFlush is the identity on an empty buffer; otherwise it empties the
buffer and records one delivery attempt with its diagnostics. -/
theorem doFlush_spec (st : SState) :
    (st.buffer = [] → doFlush st = st) ∧
    (st.buffer ≠ [] →
      doFlush st = { st with
                     buffer := [],
                     sent := st.sent ++ (flushRequest st.cfg st.buffer).1.toList,
                     diags := st.diags ++ (flushRequest st.cfg st.buffer).2 }) := by
  constructor
  · intro h
    rw [doFlush, if_pos (by simp [h])]
  · intro h
    rw [doFlush, if_neg (by simp [h])]

/-- What stop leaves behind: the loop exited, the intake drained, the buffer
flushed once, delivery history extended by at most that one final attempt. -/
theorem stopShipper_spec (st : SState) :
    (stopShipper st).stopped = true ∧
    (stopShipper st).queue = [] ∧
    (stopShipper st).buffer = [] ∧
    (stopShipper st).sent =
      st.sent ++ (flushRequest st.cfg (st.buffer ++ st.queue)).1.toList ∧
    (stopShipper st).diags =
      st.diags ++ (flushRequest st.cfg (st.buffer ++ st.queue)).2 := by
  rw [stopShipper]
  by_cases h : st.buffer ++ st.queue = []
  · rw [doFlush, if_pos (by simp [h])]
    simp [h, flushRequest_nil]
  · rw [doFlush, if_neg (by simp [h])]
    simp

/-- A single transition from a stopped state never changes the delivery
history and never restarts the loop. -/
theorem step_after_stop (st st' : SState) (hs : st.stopped = true) (h : Step st st') :
    st'.sent = st.sent ∧ st'.stopped = true := by
  cases h with
  | sendStep e st =>
    rw [send]
    split
    · exact ⟨rfl, hs⟩
    · exact ⟨rfl, hs⟩
  | flushCallStep st =>
    rw [flushCall, if_pos hs]
    exact ⟨rfl, hs⟩
  | recvStep e rest st h1 h2 => rw [h1] at hs; cases hs
  | tickStep st h1 => rw [h1] at hs; cases hs
  | flushReqStep st h1 => rw [h1] at hs; cases hs
  | stopStep st h1 => rw [h1] at hs; cases hs

/-- No sequence of transitions from a stopped state ever changes the delivery
history. -/
theorem steps_after_stop (st st' : SState) (hs : st.stopped = true)
    (h : Relation.ReflTransGen Step st st') :
    st'.sent = st.sent ∧ st'.stopped = true := by
  induction h with
  | refl => exact ⟨rfl, hs⟩
  | tail hab hbc ih =>
    obtain ⟨h1, h2⟩ := ih
    have h3 := step_after_stop _ _ h2 hbc
    exact ⟨h3.1.trans h1, h3.2⟩

/-- The payload of a nonempty all-marshalable batch is not empty. -/
theorem buildPayload_ne_empty (batch : List Event) (hne : batch ≠ [])
    (h : ∀ e ∈ batch, marshalOk e = true) : (buildPayload batch).1 ≠ "" := by
  intro hcontra
  have hd := buildPayload_data batch h
  rw [hcontra] at hd
  cases batch with
  | nil => exact hne rfl
  | cons e rest =>
    rw [List.map_cons, List.flatten_cons] at hd
    have : ('\n' : Char) ∈ ("" : String).data := by
      rw [hd]
      simp
    simp at this

/-- C1: the spec and the repository documentation promise an optional user-ID
correlation field that serializes as `user_id` whenever non-empty; the code has
no such field. At the concrete failing input — a context holding user ID
"user-abc" via WithUserID — the context accessor returns the ID, the event
marshals, its wire record is exactly the rendered field list, yet that field
list has no `user_id` entry (while `job_id` is carried as documented). -/
theorem c1_user_id_never_serialized :
    UserID (WithUserID Background "user-abc") = "user-abc" ∧
    marshalOk (newEvent (some sampleCfg) "2026-02-06T12:00:00Z"
      (WithUserID Background "user-abc") "user.created" none "info") = true ∧
    marshalEvent (newEvent (some sampleCfg) "2026-02-06T12:00:00Z"
      (WithUserID Background "user-abc") "user.created" none "info") =
      .ok (String.mk (jchars (J.obj (eventRecord (newEvent (some sampleCfg)
        "2026-02-06T12:00:00Z" (WithUserID Background "user-abc")
        "user.created" none "info"))))) ∧
    (eventRecord (newEvent (some sampleCfg) "2026-02-06T12:00:00Z"
      (WithUserID Background "user-abc") "user.created" none "info")).lookup "user_id"
      = none ∧
    (eventRecord (newEvent (some sampleCfg) "2026-02-06T12:00:00Z"
      (WithUserID Background "user-abc") "user.created" none "info")).lookup "job_id"
      = some (J.str "job-1") := by
  exact ⟨rfl, rfl, rfl, rfl, rfl⟩

/-- C3: the intake queue of a fresh shipper has capacity exactly twice the
batch-size threshold; send accepts the event exactly when the queue has free
capacity and otherwise drops it with the buffer-full diagnostic; send is total
(no error to the caller) and never delivers or touches buffer, capacity or the
stop flag. -/
theorem c3_send_bounded_drop (cfg : Config) (st : SState) (e : Event) :
    (newShipper cfg).queueCap = 2 * cfg.batchSize ∧
    (send st e).queue =
      (if (st.queue.length : Int) < st.queueCap then st.queue ++ [e] else st.queue) ∧
    (send st e).diags =
      (if (st.queue.length : Int) < st.queueCap then st.diags
       else st.diags ++ ["monitor: shipper buffer full, dropping event"]) ∧
    (send st e).sent = st.sent ∧
    (send st e).buffer = st.buffer ∧
    (send st e).queueCap = st.queueCap ∧
    (send st e).stopped = st.stopped := by
  refine ⟨by simp [newShipper, Int.mul_comm], ?_, ?_, ?_, ?_, ?_, ?_⟩ <;>
    by_cases h : (st.queue.length : Int) < st.queueCap <;> simp [send, h]

/-- C6: the payload concatenates the records of the events that marshal, each
followed by exactly one newline separator; an event whose serialization fails
is skipped with one diagnostic naming the error while every other event of the
batch, before or after it, is still serialized. -/
theorem c6_per_event_serialization (batch : List Event) :
    (buildPayload batch).1 =
      ((batch.filterMap (fun e => (marshalEvent e).toOption)).map
        (fun line => line ++ "\n")).foldr (fun a bb => a ++ bb) "" ∧
    (buildPayload batch).2 = batch.filterMap (fun e =>
      match marshalEvent e with
      | .error m => some ("monitor: failed to marshal event: " ++ m)
      | .ok _ => none) :=
  buildPayload_eq batch

/-- C7: a flush of an empty buffer is a no-op (no delivery attempt, no error,
state unchanged); a flush of a nonempty buffer — in particular one holding
fewer than B events — takes exactly the buffered events as the batch of one
delivery attempt and leaves the buffer empty, and when every buffered event
marshals the attempt is an actual request carrying exactly that payload. -/
theorem c7_flush_buffer_semantics (st : SState) :
    (st.buffer = [] → doFlush st = st) ∧
    (st.buffer ≠ [] →
      (doFlush st).buffer = [] ∧
      (doFlush st).sent = st.sent ++ (flushRequest st.cfg st.buffer).1.toList ∧
      ((∀ e ∈ st.buffer, marshalOk e = true) →
        ∃ req, (flushRequest st.cfg st.buffer).1 = some req ∧
          payloadOf req.body = (buildPayload st.buffer).1)) := by
  have hs := doFlush_spec st
  refine ⟨hs.1, fun h => ?_⟩
  rw [hs.2 h]
  refine ⟨rfl, rfl, fun hok => ?_⟩
  have hne := buildPayload_ne_empty st.buffer h hok
  refine ⟨{ method := "POST", url := st.cfg.ingestURL,
            contentType := "application/x-ndjson",
            contentEncoding := if st.cfg.gzipEnabled then some "gzip" else none,
            authorization := if st.cfg.apiKey = "" then none
                             else some ("Bearer " ++ st.cfg.apiKey),
            body := if st.cfg.gzipEnabled then Body.gzipped (buildPayload st.buffer).1
                    else Body.plain (buildPayload st.buffer).1 }, ?_, ?_⟩
  · simp [flushRequest, hne]
  · cases hgz : st.cfg.gzipEnabled <;> simp [payloadOf, hgz]

/-- C7 witness: flushing the sample running state with one buffered event
empties the buffer and records exactly one delivery attempt for it. -/
theorem c7_flush_buffer_semantics_witness :
    (doFlush sampleRunning).buffer = [] ∧
    (doFlush sampleRunning).sent =
      sampleRunning.sent ++ (flushRequest sampleRunning.cfg sampleRunning.buffer).1.toList :=
  ⟨((c7_flush_buffer_semantics sampleRunning).2 (by simp [sampleRunning])).1,
   ((c7_flush_buffer_semantics sampleRunning).2 (by simp [sampleRunning])).2.1⟩

/-- C8: every delivery attempt is a POST to the configured ingest URL with
content type application/x-ndjson; the gzip content-encoding indicator is set
exactly when compression is enabled, in which case the body is the whole
payload compressed as one unit; a bearer Authorization header is present
exactly when an API key is configured. -/
theorem c8_request_construction (cfg : Config) (batch : List Event) (req : HttpRequest)
    (h : (flushRequest cfg batch).1 = some req) :
    req.method = "POST" ∧
    req.url = cfg.ingestURL ∧
    req.contentType = "application/x-ndjson" ∧
    req.contentEncoding = (if cfg.gzipEnabled then some "gzip" else none) ∧
    (cfg.gzipEnabled = true → req.body = Body.gzipped (buildPayload batch).1) ∧
    (cfg.gzipEnabled = false → req.body = Body.plain (buildPayload batch).1) ∧
    req.authorization = (if cfg.apiKey = "" then none else some ("Bearer " ++ cfg.apiKey)) := by
  simp only [flushRequest] at h
  split at h
  · simp at h
  · simp only [Option.some.injEq] at h
    subst h
    refine ⟨rfl, rfl, rfl, rfl, ?_, ?_, rfl⟩
    · intro hg
      simp [hg]
    · intro hg
      simp [hg]

/-- C8 witness: the sample flush request carries the documented method, URL,
content type, encoding and authorization for the sample configuration. -/
theorem c8_request_construction_witness :
    sampleRequest.method = "POST" ∧
    sampleRequest.url = sampleCfg.ingestURL ∧
    sampleRequest.contentType = "application/x-ndjson" ∧
    sampleRequest.contentEncoding = (if sampleCfg.gzipEnabled then some "gzip" else none) ∧
    (sampleCfg.gzipEnabled = true →
      sampleRequest.body = Body.gzipped (buildPayload [sampleEvent "b1"]).1) ∧
    (sampleCfg.gzipEnabled = false →
      sampleRequest.body = Body.plain (buildPayload [sampleEvent "b1"]).1) ∧
    sampleRequest.authorization =
      (if sampleCfg.apiKey = "" then none else some ("Bearer " ++ sampleCfg.apiKey)) :=
  c8_request_construction sampleCfg [sampleEvent "b1"] sampleRequest (by
    have hne := buildPayload_ne_empty [sampleEvent "b1"] (by simp) (by decide)
    simp [flushRequest, hne, sampleRequest, sampleCfg])

/-- C9: a flush call on an instance that has already stopped observes the
closed stop channel and returns at once, unchanged: it does not block on the
flush channel and triggers no delivery attempt. -/
theorem c9_flush_after_stop (st : SState) (h : st.stopped = true) :
    flushCall st = st := by
  rw [flushCall, if_pos h]

/-- C9 witness: flushing the stopped sample instance returns it unchanged. -/
theorem c9_flush_after_stop_witness :
    flushCall { sampleRunning with stopped := true } =
      { sampleRunning with stopped := true } :=
  c9_flush_after_stop { sampleRunning with stopped := true } rfl

/-- C10: before any successful Init the global configuration is unset and Emit
returns immediately: no stdout record, no stderr diagnostic, no state change
(hence no enqueue), no error and no panic — Emit is a total function into
plain values; and no operation ever returns the declared sentinel
ErrNotInitialized, since Init returns only ErrServiceRequired or success. -/
theorem c10_emit_before_init (g : GlobalSt) (now : String) (ctx : Context)
    (name : String) (data : Option GoValue) (level : String) (h : g.config = none) :
    Emit g now ctx name data level = (g, none, []) ∧
    (∀ cfg, initResult cfg ≠ some MonitorError.errNotInitialized) := by
  constructor
  · simp [Emit, h]
  · intro cfg
    rw [initResult]
    split <;> simp

/-- C10 witness: an Emit against the empty global state is a complete no-op. -/
theorem c10_emit_before_init_witness :
    Emit ⟨none, none⟩ "t" Background "n" none "info" = (⟨none, none⟩, none, []) :=
  (c10_emit_before_init ⟨none, none⟩ "t" Background "n" none "info" rfl).1

/-- C2: stop is modeled as one atomic transition, because stop() blocks on the
done channel until the run loop has drained the intake queue into the buffer,
performed one final flush and exited. Once stop has returned, the loop is
stopped, queue and buffer are empty, the delivery history grew by at most the
one final flush of exactly the events enqueued at stop time, and along every
further sequence of transitions — sends from any caller included — the
delivery history never changes: no delivery attempt occurs after stop
returns. -/
theorem c2_stop_halts_delivery (st0 st1 : SState)
    (h : Relation.ReflTransGen Step (stopShipper st0) st1) :
    (stopShipper st0).stopped = true ∧
    (stopShipper st0).queue = [] ∧
    (stopShipper st0).buffer = [] ∧
    (stopShipper st0).sent =
      st0.sent ++ (flushRequest st0.cfg (st0.buffer ++ st0.queue)).1.toList ∧
    st1.sent = (stopShipper st0).sent ∧
    st1.stopped = true := by
  have hs := stopShipper_spec st0
  have hst := steps_after_stop _ _ hs.1 h
  exact ⟨hs.1, hs.2.1, hs.2.2.1, hs.2.2.2.1, hst.1, hst.2⟩

/-- C2 witness: stopping the sample running state drains and flushes it, and
the empty continuation preserves the delivery history. -/
theorem c2_stop_halts_delivery_witness :
    (stopShipper sampleRunning).stopped = true ∧
    (stopShipper sampleRunning).queue = [] ∧
    (stopShipper sampleRunning).buffer = [] ∧
    (stopShipper sampleRunning).sent =
      sampleRunning.sent ++
        (flushRequest sampleRunning.cfg
          (sampleRunning.buffer ++ sampleRunning.queue)).1.toList ∧
    (stopShipper sampleRunning).sent = (stopShipper sampleRunning).sent ∧
    (stopShipper sampleRunning).stopped = true :=
  c2_stop_halts_delivery sampleRunning (stopShipper sampleRunning)
    Relation.ReflTransGen.refl

/-- C4: when appending a dequeued event makes the buffer length reach the
batch-size threshold, the run loop immediately flushes exactly those events,
leaving the buffer empty; and in the concrete scenario batchSize = 2 with the
timer never firing, queuing A, B, C yields exactly one immediate delivery
attempt for the batch A,B while C stays buffered. -/
theorem c4_size_triggered_flush (e : Event) (st : SState) (a b c : Event) (cfg : Config)
    (hB : (st.buffer.length : Int) + 1 = st.cfg.batchSize) (h2 : cfg.batchSize = 2) :
    (handleEvent e st).buffer = [] ∧
    (handleEvent e st).sent =
      st.sent ++ (flushRequest st.cfg (st.buffer ++ [e])).1.toList ∧
    runQueued [a, b, c] (newShipper cfg) =
      { newShipper cfg with
        buffer := [c],
        sent := (flushRequest cfg [a, b]).1.toList,
        diags := (flushRequest cfg [a, b]).2 } := by
  have hcond : ((({ st with buffer := st.buffer ++ [e] } : SState).buffer.length : Int)
      ≥ ({ st with buffer := st.buffer ++ [e] } : SState).cfg.batchSize) := by
    simp only [List.length_append, List.length_cons, List.length_nil]
    push_cast
    omega
  have h1 : handleEvent e st = doFlush { st with buffer := st.buffer ++ [e] } := by
    rw [handleEvent, if_pos hcond]
  have hne : ({ st with buffer := st.buffer ++ [e] } : SState).buffer ≠ [] := by
    simp
  have hd := (doFlush_spec { st with buffer := st.buffer ++ [e] }).2 hne
  refine ⟨?_, ?_, ?_⟩
  · rw [h1, hd]
  · rw [h1, hd]
  · simp [runQueued, handleEvent, doFlush, newShipper, h2]

/-- C4 witness: at the sample state one more event reaches the threshold and
flushes the pair; the concrete A, B, C scenario delivers one batch of two. -/
theorem c4_size_triggered_flush_witness :
    (handleEvent (sampleEvent "e2") sampleRunning).buffer = [] ∧
    (handleEvent (sampleEvent "e2") sampleRunning).sent =
      sampleRunning.sent ++
        (flushRequest sampleRunning.cfg
          (sampleRunning.buffer ++ [sampleEvent "e2"])).1.toList ∧
    runQueued [sampleEvent "a", sampleEvent "b", sampleEvent "c"] (newShipper sampleCfg) =
      { newShipper sampleCfg with
        buffer := [sampleEvent "c"],
        sent := (flushRequest sampleCfg [sampleEvent "a", sampleEvent "b"]).1.toList,
        diags := (flushRequest sampleCfg [sampleEvent "a", sampleEvent "b"]).2 } :=
  c4_size_triggered_flush (sampleEvent "e2") sampleRunning
    (sampleEvent "a") (sampleEvent "b") (sampleEvent "c") sampleCfg (by decide) (by decide)

/-- C5: serializing a batch of marshalable events to the newline-delimited
payload and parsing it back line by line yields exactly one decoded record per
event, in order; the decoded name, level and identifier fields equal those of
the originals, and every optional field that was absent at construction —
empty identifiers, empty env, absent data — is absent after decoding rather
than present with a placeholder. -/
theorem c5_serialize_parse_roundtrip (batch : List Event)
    (h : ∀ e ∈ batch, marshalOk e = true) :
    (parsePayload (buildPayload batch).1).length = batch.length ∧
    parsePayload (buildPayload batch).1 = batch.map (fun e => some (eventRecord e)) ∧
    (∀ e ∈ batch,
      (eventRecord e).lookup "name" = some (J.str e.name) ∧
      (eventRecord e).lookup "level" = some (J.str e.level) ∧
      (eventRecord e).lookup "job_id" =
        (if e.jobID = "" then none else some (J.str e.jobID)) ∧
      (eventRecord e).lookup "request_id" =
        (if e.requestID = "" then none else some (J.str e.requestID)) ∧
      (eventRecord e).lookup "trace_id" =
        (if e.traceID = "" then none else some (J.str e.traceID)) ∧
      (eventRecord e).lookup "env" = (if e.env = "" then none else some (J.str e.env)) ∧
      (e.data = none → (eventRecord e).lookup "data" = none)) := by
  have hp := parsePayload_roundtrip batch h
  refine ⟨by rw [hp]; simp, hp, fun e he => ?_⟩
  obtain ⟨ht, hsv, hn, hlv, henv, hjob, hreq, htr, hus, hdata⟩ :=
    eventRecord_lookup e (h e he)
  refine ⟨hn, hlv, hjob, hreq, htr, henv, fun hdd => ?_⟩
  rw [hdata, hdd]

/-- C5 witness: a concrete two-event batch round-trips to exactly two decoded
records matching the originals. -/
theorem c5_serialize_parse_roundtrip_witness :
    (parsePayload (buildPayload [sampleEvent "n1", sampleEvent "n2"]).1).length =
      ([sampleEvent "n1", sampleEvent "n2"] : List Event).length ∧
    parsePayload (buildPayload [sampleEvent "n1", sampleEvent "n2"]).1 =
      ([sampleEvent "n1", sampleEvent "n2"] : List Event).map
        (fun e => some (eventRecord e)) :=
  ⟨(c5_serialize_parse_roundtrip [sampleEvent "n1", sampleEvent "n2"] (by decide)).1,
   (c5_serialize_parse_roundtrip [sampleEvent "n1", sampleEvent "n2"] (by decide)).2.1⟩

end Monitor
